import Mathlib

/-!
Shallow embedding of the two-watched-literal SAT propagation core of the
yasuosat repository (src/lib.rs): literal encoding, checked and unchecked
construction, truth evaluation, and the single-step unit-propagation loop,
together with theorems settling the specification claims.

Modelling notes.
Machine integers are modelled as Int / Nat; on the in-range literals every
claim is about, no i32 or usize overflow occurs, so no explicit wraparound
is needed.  The unchecked read of the per-variable assignment array in
eval_unchecked is modelled as a runtime-error value (RtErr.ub), because the
source performs get_unchecked there and the claims probe its bound.  The
clause buffer and watcher lists are Lists; indexed writes use List.set and
indexed reads List.getD / List.get? (an out-of-range List.set is a no-op;
the theorems below only ever exercise in-range slots).  The raw pointers of
the source ClausePtr are modelled as a pair of indices (first, last) into
the clause buffer; pointer identity of a clause corresponds to equality of
the index pair, which is faithful because distinct clauses occupy disjoint
buffer intervals.  The propagation loop of the source can diverge on states
that violate its watcher-list invariant, so the model takes an explicit
fuel parameter; exhausting it yields RtErr.fuel, and theorems about
completed runs are stated on Except.ok results.  debug_assert! statements
compile out in release builds and are not modelled; the assert! at the top
of propagate_once is modelled as RtErr.panic.
-/

namespace Yasuosat

/-- Polarity of a literal (source: LitFunctions.as_bool): positive sign. -/
def as_bool (lit : Int) : Bool := decide (0 < lit)

/-- Variable id of a literal (source: LitFunctions.var): absolute value. -/
def varOf (lit : Int) : Nat := lit.natAbs

/-- Negation of a literal (source: LitFunctions.negative). -/
def negative (lit : Int) : Int := -lit

/-- Watcher slot of a literal (source: LitFunctions.get_loc):
(n as i32 + lit) as usize.  For the literals the code ever passes here the
sum is nonnegative and far below 2^31, so Int.toNat is the exact value of
the Rust cast. -/
def get_loc (lit : Int) (n : Nat) : Nat := ((n : Int) + lit).toNat

/-- The solver state (source: struct Solver).  clause_body is the single
flattened literal buffer, clauses the list of (first, last) index pairs
(source: ClausePtr pairs, last points at the final literal of the clause),
watchers the 2n+1 per-slot lists of clause pointers. -/
structure Solver where
  n : Nat
  clause_body : List Int
  clauses : List (Nat × Nat)
  assign : List (Option Bool)
  level : Nat
  suggest : List Bool
  levels : List Nat
  watchers : List (List (Nat × Nat))
deriving DecidableEq

/-- Result of one propagation step (source: enum PropagateResult). -/
inductive PropagateResult where
  | Ok : List (Int × Option (Nat × Nat)) → PropagateResult
  | Conflict : Nat × Nat → PropagateResult
deriving DecidableEq

/-- Runtime-error outcomes of the model: panic models a failed assert!,
ub models an out-of-bounds unchecked access, fuel models exhaustion of the
loop fuel (the source loop can diverge on invariant-violating states). -/
inductive RtErr where
  | panic | ub | fuel
deriving DecidableEq

deriving instance DecidableEq for Except

/-- Spans (first, last) of the flattened clauses (source: new_unchecked,
v_indexes.windows(2) mapped to (base+win[0], base+win[1]-1)). -/
def mkSpans : Nat → List (List Int) → List (Nat × Nat)
  | _, [] => []
  | off, c :: rest => (off, off + c.length - 1) :: mkSpans (off + c.length) rest

/-- Push a clause pointer onto the watcher list of slot k. -/
def pushAt (w : List (List (Nat × Nat))) (k : Nat) (c : Nat × Nat) :
    List (List (Nat × Nat)) :=
  w.set k ((w.getD k []) ++ [c])

/-- Register one clause in the two watcher lists of the negations of its
boundary literals (source: new_unchecked, the for loop over clauses). -/
def registerClause (n : Nat) (body : List Int) (w : List (List (Nat × Nat)))
    (c : Nat × Nat) : List (List (Nat × Nat)) :=
  pushAt (pushAt w (get_loc (negative (body.getD c.1 0)) n) c)
    (get_loc (negative (body.getD c.2 0)) n) c

/-- Unchecked construction (source: Solver::new_unchecked).  The caller
guarantees every clause has length at least 2, only nonzero literals of
magnitude at most n, and no repeated variable. -/
def new_unchecked (n : Nat) (clauses : List (List Int)) : Solver :=
  let body := clauses.flatten
  let spans := mkSpans 0 clauses
  { n := n
    clause_body := body
    clauses := spans
    assign := List.replicate n none
    level := 0
    suggest := List.replicate n false
    levels := List.replicate n 0
    watchers := spans.foldl (registerClause n body)
      (List.replicate (2 * n + 1) ([] : List (Nat × Nat))) }

/-- Adjacent-pairs-distinct scan (source: v.windows(2).all(|s| s[0] != s[1])
inside Solver::new, run on the sorted list of absolute values). -/
def adjOk : List Nat → Bool
  | a :: b :: t => decide (a ≠ b) && adjOk (b :: t)
  | _ => true

/-- Duplicate-variable check of Solver::new: sort the absolute values and
require all adjacent pairs distinct. -/
def noDupAbs (c : List Int) : Bool :=
  adjOk (List.insertionSort (· ≤ ·) (c.map (fun v => v.natAbs)))

/-- Checked construction (source: Solver::new): validate every clause
(length at least 2, nonzero literals of magnitude at most n, no duplicate
variable), then build; reject the whole input otherwise. -/
def Solver.new (n : Nat) (clauses : List (List Int)) : Option Solver :=
  if clauses.all (fun c =>
      decide (2 ≤ c.length) &&
      c.all (fun v => decide (v ≠ 0) && decide (v.natAbs ≤ n)) &&
      noDupAbs c) then
    some (new_unchecked n clauses)
  else
    none

/-- Truth evaluation (source: Solver::eval_unchecked): read the variable's
assignment and compare with the literal's polarity.  The source reads
assign with get_unchecked(lit.var()); an index outside the array is
undefined behaviour, modelled as RtErr.ub. -/
def eval_unchecked (s : Solver) (lit : Int) : Except RtErr (Option Bool) :=
  match s.assign.get? (varOf lit) with
  | none => .error .ub
  | some a => .ok (a.map (fun b => b == as_bool lit))

/-- Swap the contents of two buffer positions (source: std::ptr::swap on
two pointers into clause_body). -/
def swapBuf (body : List Int) (i j : Nat) : List Int :=
  (body.set i (body.getD j 0)).set j (body.getD i 0)

/-- Order-agnostic O(1) removal (source: Vec::swap_remove): overwrite the
entry at i with the last entry and shrink by one. -/
def swapRemove (l : List (Nat × Nat)) (i : Nat) : List (Nat × Nat) :=
  match l.getLast? with
  | none => l
  | some x => (l.set i x).dropLast

/-- Interior scan of propagate_once from position p with rem = c1 - p
remaining interior positions: position of the first literal that does not
evaluate false, or none when all interior literals are false. -/
def scanFrom (s : Solver) : Nat → Nat → Except RtErr (Option Nat)
  | _, 0 => .ok none
  | p, rem + 1 =>
    match eval_unchecked s (s.clause_body.getD p 0) with
    | .error e => .error e
    | .ok (some false) => scanFrom s (p + 1) rem
    | .ok _ => .ok (some p)

/-- Interior scan of propagate_once (source: the while loop over the
half-open pointer range (clause.0, clause.1)); the loop runs while p < c1,
i.e. for exactly c1 - p positions. -/
def scanInterior (s : Solver) (p c1 : Nat) : Except RtErr (Option Nat) :=
  scanFrom s p (c1 - p)

/-- The main loop of Solver::propagate_once, walking the watcher list of
slot get_loc lit n at index i with accumulated consequences acc.  Each
branch mirrors one branch of the source loop body; the recursion consumes
one unit of fuel per iteration. -/
def propLoop (s : Solver) (lit : Int) :
    Nat → Nat → List (Int × Option (Nat × Nat)) →
    Except RtErr (PropagateResult × Solver)
  | 0, _, _ => .error .fuel
  | fuel + 1, i, acc =>
    match (s.watchers.getD (get_loc lit s.n) []).get? i with
    | none => .ok (.Ok acc, s)
    | some c =>
      let s1 : Solver :=
        if s.clause_body.getD c.2 0 = negative lit then
          { s with clause_body := swapBuf s.clause_body c.1 c.2 }
        else s
      match eval_unchecked s1 (s1.clause_body.getD c.2 0) with
      | .error e => .error e
      | .ok (some true) => propLoop s1 lit fuel (i + 1) acc
      | .ok _ =>
        match scanInterior s1 (c.1 + 1) c.2 with
        | .error e => .error e
        | .ok (some p) =>
          let body2 := swapBuf s1.clause_body p c.2
          let w1 := s1.watchers.set (get_loc lit s.n)
            (swapRemove (s1.watchers.getD (get_loc lit s.n) []) i)
          let k := get_loc (body2.getD p 0) s.n
          let w2 := w1.set k ((w1.getD k []) ++ [c])
          propLoop { s1 with clause_body := body2, watchers := w2 } lit fuel i acc
        | .ok none =>
          match eval_unchecked s1 (s1.clause_body.getD c.2 0) with
          | .error e => .error e
          | .ok (some false) => .ok (.Conflict c, s1)
          | .ok _ =>
            propLoop s1 lit fuel (i + 1)
              (acc ++ [(s1.clause_body.getD c.2 0, some c)])

/-- One unit-propagation step (source: Solver::propagate_once): assert the
literal's variable is in range, then run the watcher-list loop. -/
def propagate_once (s : Solver) (lit : Int) (fuel : Nat) :
    Except RtErr (PropagateResult × Solver) :=
  if varOf lit ≤ s.n then propLoop s lit fuel 0 [] else .error .panic

/-- A clause pointer is registered in exactly the watcher lists for the
negations of its two current boundary literals: once in each of those two
slots, and in no watcher list beyond those two occurrences. -/
def registeredCurrent (s : Solver) (c : Nat × Nat) : Prop :=
  (s.watchers.getD (get_loc (negative (s.clause_body.getD c.1 0)) s.n) []).count c = 1 ∧
  (s.watchers.getD (get_loc (negative (s.clause_body.getD c.2 0)) s.n) []).count c = 1 ∧
  (s.watchers.map (fun l => l.count c)).sum = 2

instance (s : Solver) (c : Nat × Nat) : Decidable (registeredCurrent s c) := by
  unfold registeredCurrent
  infer_instance

/-- Well-formedness of one watcher entry relative to lit: the span is
ordered and in bounds, and one of its two boundary positions holds the
negation of lit (the literal this watcher list stands for). -/
def spanOk (body : List Int) (lit : Int) (c : Nat × Nat) : Prop :=
  c.1 ≤ c.2 ∧ c.2 < body.length ∧
    (body.getD c.1 0 = negative lit ∨ body.getD c.2 0 = negative lit)

instance (body : List Int) (lit : Int) (c : Nat × Nat) :
    Decidable (spanOk body lit c) := by
  unfold spanOk
  infer_instance

/-- Two spans are equal or occupy disjoint index intervals. -/
def sdisj (c d : Nat × Nat) : Prop := c = d ∨ c.2 < d.1 ∨ d.2 < c.1

instance (c d : Nat × Nat) : Decidable (sdisj c d) := by
  unfold sdisj
  infer_instance

/-- The slice of the buffer covered by a span, both endpoints included. -/
def extractSpan (body : List Int) (d : Nat × Nat) : List Int :=
  (body.drop d.1).take (d.2 + 1 - d.1)

/-- Concrete state for the interior-rescue scenario: n = 4, single clause
[1, 2, 3], and the external driver has set variable 1 to false (so literal
-1 has just become true).  All variables of the clause are below n = 4, so
every eval in this run is in bounds. -/
def sA : Solver :=
  { new_unchecked 4 [[1, 2, 3]] with
    assign := (List.replicate 4 (none : Option Bool)).set 1 (some false) }

/-- The state the model reaches after propagate_once sA (-1): the clause
buffer became [1, 3, 2] (literal 2 swapped into the second-boundary
position), the clause was swap-removed from slot 3 = get_loc (-1) 4 and
pushed onto slot 7 = get_loc 3 4, the un-negated slot of the displaced
literal 3; the stale entry at slot 1 = get_loc (-3) 4 remains. -/
def sAafter : Solver :=
  { sA with
    clause_body := [1, 3, 2],
    watchers := [[], [(0, 2)], [], [], [], [], [], [(0, 2)], []] }

/-- Scenario A of the specification: n = 2, single clause [1, -2], and the
driver has set variable 1 to false. -/
def sScenA : Solver :=
  { new_unchecked 2 [[1, -2]] with
    assign := (List.replicate 2 (none : Option Bool)).set 1 (some false) }

/-- Conflict scenario with all clause variables strictly below n: n = 3,
single clause [1, 2], variables 1 and 2 both set to false. -/
def sB : Solver :=
  { new_unchecked 3 [[1, 2]] with
    assign := ((List.replicate 3 (none : Option Bool)).set 1 (some false)).set 2
      (some false) }

/-- C1: in the interior-rescue branch the code does swap the found literal
into the second-boundary position, swap-remove the clause from slot(lit)'s
list and keep the scan index, but it pushes the clause onto the watcher
list of get_loc applied to the displaced old second-boundary literal
without negation (source line: watchers[(*p).get_loc(n)].push after the
swap), not onto slot(negate(new-second-boundary)) as the claim states.  At
the concrete input sA with literal -1: the new second boundary is 2, whose
negation's slot is get_loc (negative 2) 4 = 2 and stays empty, while the
clause lands at slot get_loc 3 4 = 7 of the displaced literal 3. -/
theorem C1_push_goes_to_displaced_literal_slot :
    propagate_once sA (-1) 10 = .ok (.Ok [], sAafter) ∧
    get_loc (negative 2) 4 = 2 ∧
    sAafter.watchers.getD 2 [] = [] ∧
    get_loc 3 4 = 7 ∧
    sAafter.watchers.getD 7 [] = [(0, 2)] := by decide

/-- C2: after construction the clause of sA is registered exactly in the
two slots of the negations of its boundary literals, but the call
propagate_once sA (-1) breaks the invariant: afterwards the clause's
current boundaries are 1 and 2, yet it is registered at slots 1 and 7
(slot(-3), stale, and slot(+3), the buggy push) and absent from
slot(-1) = 3 and slot(-2) = 2. -/
theorem C2_invariant_broken_by_propagate :
    registeredCurrent sA (0, 2) ∧
    propagate_once sA (-1) 10 = .ok (.Ok [], sAafter) ∧
    ¬ registeredCurrent sAafter (0, 2) := by decide

/-- C3: the eval truth table is as claimed for variables strictly below n
(shown on sA: variable 1 assigned false, variable 2 unassigned), but the
lookup is not in bounds for v = n: assign has length n and eval_unchecked
indexes it with lit.var() itself, so variable n reads past the end (shown
at n = 4 for both polarities, and at n = 1 with literal 1). -/
theorem C3_eval_out_of_bounds_at_var_n :
    eval_unchecked sA (-1) = .ok (some true) ∧
    eval_unchecked sA 1 = .ok (some false) ∧
    eval_unchecked sA 2 = .ok none ∧
    eval_unchecked sA 4 = .error .ub ∧
    eval_unchecked sA (-4) = .error .ub ∧
    eval_unchecked (new_unchecked 1 []) 1 = .error .ub := by decide

/-- C4: Scenario A (n = 2, clause [1, -2], variable 1 set false,
propagate_once(-1)) does not produce the consequence list [(-2, clause)]:
evaluating the second boundary -2 reads assign at index 2 of the length-2
assign array, an out-of-bounds unchecked read. -/
theorem C4_scenario_a_hits_out_of_bounds :
    propagate_once sScenA (-1) 10 = .error .ub := by decide

/-- C10: propagate_once asserts lit.var() <= n as its very first statement
and panics when the variable magnitude exceeds n, before touching any
watcher list or clause data; the model returns the panic error without
producing any state. -/
theorem C10_assert_panics_on_out_of_range_literal (s : Solver) (lit : Int)
    (fuel : Nat) (h : s.n < varOf lit) :
    propagate_once s lit fuel = .error .panic := by
  unfold propagate_once
  rw [if_neg]
  omega

/-- Witness for C10 at the concrete input n = 1, literal 2. -/
theorem C10_witness :
    propagate_once (new_unchecked 1 []) 2 5 = .error .panic :=
  C10_assert_panics_on_out_of_range_literal (new_unchecked 1 []) 2 5 (by decide)

/-- C7 counterexample: get_loc is not a bijection onto [0, 2n].  At n = 1
the valid literals are -1 and 1, yet no valid literal is mapped to the
slot 1 = n, which lies in [0, 2n]: the middle slot corresponds to the
invalid literal 0 and is never hit, so the map is not surjective onto
[0, 2n]. -/
theorem C7_counterexample :
    ¬ ∃ lit : Int, (lit ≠ 0 ∧ lit.natAbs ≤ 1) ∧ get_loc lit 1 = 1 := by
  rintro ⟨lit, ⟨h0, h1⟩, h⟩
  unfold get_loc at h
  omega

/-- C7 amended: slot(lit) = n + lit is injective on the valid literals
(nonzero, magnitude at most n) and its image is exactly [0, 2n] with the
middle slot n removed; negate(lit) = -lit and var(lit) = |lit| as claimed. -/
theorem C7_slot_encoding (n : Nat) :
    (∀ a b : Int, a ≠ 0 → a.natAbs ≤ n → b ≠ 0 → b.natAbs ≤ n →
      get_loc a n = get_loc b n → a = b) ∧
    (∀ a : Int, a ≠ 0 → a.natAbs ≤ n → get_loc a n ≤ 2 * n ∧ get_loc a n ≠ n) ∧
    (∀ k : Nat, k ≤ 2 * n → k ≠ n →
      ∃ a : Int, a ≠ 0 ∧ a.natAbs ≤ n ∧ get_loc a n = k) ∧
    (∀ a : Int, negative a = -a) ∧
    (∀ a : Int, varOf a = a.natAbs) := by
  unfold get_loc negative varOf
  refine ⟨fun a b h0a h1a h0b h1b h => ?_, fun a h0 h1 => ⟨?_, ?_⟩,
    fun k hk hkn => ⟨(k : Int) - n, ?_, ?_, ?_⟩, fun a => rfl, fun a => rfl⟩
  all_goals omega

/-- Witness for C7 at n = 1: slot of literal 1 is in range and avoids the
middle slot. -/
theorem C7_witness : get_loc 1 1 ≤ 2 * 1 ∧ get_loc 1 1 ≠ 1 :=
  (C7_slot_encoding 1).2.1 1 (by decide) (by decide)

/-- On a list sorted by ≤, all adjacent pairs distinct is equivalent to no
duplicates at all. -/
lemma adjOk_iff_nodup : ∀ {l : List Nat}, l.Sorted (· ≤ ·) →
    (adjOk l = true ↔ l.Nodup) := by
  intro l
  induction l with
  | nil => simp [adjOk]
  | cons a t ih =>
    cases t with
    | nil => simp [adjOk]
    | cons b u =>
      intro hs
      have hab : a ≤ b := List.rel_of_sorted_cons hs b (by simp)
      have hbu : ∀ x ∈ u, b ≤ x := fun x hx =>
        List.rel_of_sorted_cons hs.of_cons x hx
      rw [show adjOk (a :: b :: u) = (decide (a ≠ b) && adjOk (b :: u)) from rfl]
      rw [Bool.and_eq_true, decide_eq_true_eq, List.nodup_cons, ih hs.of_cons]
      constructor
      · rintro ⟨hne, hnd⟩
        refine ⟨?_, hnd⟩
        intro hmem
        rcases List.mem_cons.mp hmem with h | h
        · exact hne h
        · exact hne (le_antisymm hab (hbu a h))
      · rintro ⟨hnotmem, hnd⟩
        exact ⟨fun h => hnotmem (by rw [h]; exact List.mem_cons_self b u), hnd⟩

/-- The duplicate-variable check of Solver::new (sort the absolute values,
compare adjacent entries) accepts exactly the clauses whose variables are
pairwise distinct. -/
lemma noDupAbs_iff (c : List Int) :
    noDupAbs c = true ↔ (c.map (fun v => v.natAbs)).Nodup := by
  unfold noDupAbs
  rw [adjOk_iff_nodup (List.sorted_insertionSort (· ≤ ·) _)]
  exact (List.perm_insertionSort (· ≤ ·) _).nodup_iff

/-- C6: checked construction returns no solver exactly when some input
clause has length below 2, contains a zero literal, contains a literal of
magnitude above n, or contains two literals of the same variable; on every
other input it returns a solver built by the unchecked path, and a
rejection produces the bare absence value, never partial state. -/
theorem C6_checked_construction_rejects (n : Nat) (cs : List (List Int)) :
    Solver.new n cs = none ↔
      ∃ c ∈ cs, c.length < 2 ∨ (∃ v ∈ c, v = 0 ∨ n < v.natAbs) ∨
        ¬ (c.map (fun v => v.natAbs)).Nodup := by
  unfold Solver.new
  split_ifs with h
  · simp only [List.all_eq_true, Bool.and_eq_true, decide_eq_true_eq] at h
    simp only [reduceCtorEq, false_iff, not_exists]
    intro c
    rintro ⟨hc, hbad⟩
    rcases h c hc with ⟨⟨hlen, hlit⟩, hdup⟩
    rcases hbad with hb | ⟨v, hv, hv0⟩ | hb
    · omega
    · rcases hlit v hv with ⟨h0, hle⟩
      rcases hv0 with h' | h'
      · exact h0 h'
      · omega
    · exact hb ((noDupAbs_iff c).mp hdup)
  · rw [List.all_eq_true] at h
    simp only [true_iff]
    rcases not_forall.mp h with ⟨c, hcb⟩
    rcases Classical.not_imp.mp hcb with ⟨hc, hcf⟩
    refine ⟨c, hc, ?_⟩
    by_cases hlen : 2 ≤ c.length
    · by_cases hlit : ∀ v ∈ c, v ≠ 0 ∧ v.natAbs ≤ n
      · refine Or.inr (Or.inr fun hnd => ?_)
        apply hcf
        simp only [Bool.and_eq_true, decide_eq_true_eq, List.all_eq_true]
        exact ⟨⟨hlen, hlit⟩, (noDupAbs_iff c).mpr hnd⟩
      · push_neg at hlit
        rcases hlit with ⟨v, hv, hvbad⟩
        refine Or.inr (Or.inl ⟨v, hv, ?_⟩)
        by_cases h0 : v = 0
        · exact Or.inl h0
        · exact Or.inr (hvbad h0)
    · exact Or.inl (by omega)

/-- Witness for C6 at the specification's own example: n = 2 with the
single clause [1, 1, 2] (repeated variable) is rejected. -/
theorem C6_witness : Solver.new 2 [[1, 1, 2]] = none :=
  (C6_checked_construction_rejects 2 [[1, 1, 2]]).mpr
    ⟨[1, 1, 2], by simp, Or.inr (Or.inr (by decide))⟩

/-- Every state the propagation loop builds differs from its input only in
clause_body and watchers; all other fields are carried over unchanged. -/
lemma propLoop_frame (lit : Int) : ∀ (fuel : Nat) (s : Solver) (i : Nat)
    (acc : List (Int × Option (Nat × Nat))) (r : PropagateResult) (s' : Solver),
    propLoop s lit fuel i acc = .ok (r, s') →
    s'.assign = s.assign ∧ s'.level = s.level ∧ s'.levels = s.levels ∧
    s'.suggest = s.suggest ∧ s'.n = s.n ∧ s'.clauses = s.clauses := by
  intro fuel
  induction fuel with
  | zero =>
    intro s i acc r s' h
    exact absurd h (by simp [propLoop])
  | succ fuel ih =>
    intro s i acc r s' h
    rw [propLoop] at h
    split at h
    · cases h
      exact ⟨rfl, rfl, rfl, rfl, rfl, rfl⟩
    · rename_i c _
      by_cases hswap : s.clause_body.getD c.2 0 = negative lit <;>
        simp only [if_pos, if_neg, hswap, if_true, if_false] at h
      all_goals (
        split at h
        · exact absurd h (by simp)
        · have hx := ih _ _ _ _ _ h
          exact hx
        · split at h
          · exact absurd h (by simp)
          · have hx := ih _ _ _ _ _ h
            exact hx
          · split at h
            · exact absurd h (by simp)
            · cases h
              exact ⟨rfl, rfl, rfl, rfl, rfl, rfl⟩
            · have hx := ih _ _ _ _ _ h
              exact hx)

/-- C8: a completed call of propagate_once leaves the assignment array,
the decision level, the per-variable level array and the polarity
suggestions unchanged (and also n and the clause span table): only
watchers and clause_body are ever rebuilt. -/
theorem C8_propagate_preserves_assignment_state (s : Solver) (lit : Int)
    (fuel : Nat) (r : PropagateResult) (s' : Solver)
    (h : propagate_once s lit fuel = .ok (r, s')) :
    s'.assign = s.assign ∧ s'.level = s.level ∧ s'.levels = s.levels ∧
    s'.suggest = s.suggest ∧ s'.n = s.n ∧ s'.clauses = s.clauses := by
  unfold propagate_once at h
  split_ifs at h with hv
  exact propLoop_frame lit fuel s 0 [] r s' h

/-- Witness for C8 on the concrete rescue scenario sA. -/
theorem C8_witness :
    sAafter.assign = sA.assign ∧ sAafter.level = sA.level ∧
    sAafter.levels = sA.levels ∧ sAafter.suggest = sA.suggest ∧
    sAafter.n = sA.n ∧ sAafter.clauses = sA.clauses :=
  C8_propagate_preserves_assignment_state sA (-1) 10 (.Ok []) sAafter (by decide)

/-! Helper lemmas about the primitive buffer and watcher-list operations,
used by the loop-invariant proofs below. -/

lemma swapBuf_length (body : List Int) (i j : Nat) :
    (swapBuf body i j).length = body.length := by
  simp [swapBuf]

lemma getD_swapBuf_ne (body : List Int) {i j k : Nat} (hki : k ≠ i)
    (hkj : k ≠ j) : (swapBuf body i j).getD k 0 = body.getD k 0 := by
  unfold swapBuf
  rw [List.getD_eq_getElem?_getD, List.getElem?_set_ne (Ne.symm hkj),
    List.getElem?_set_ne (Ne.symm hki), ← List.getD_eq_getElem?_getD]

lemma getD_swapBuf_fst (body : List Int) {i j : Nat} (hi : i < body.length) :
    (swapBuf body i j).getD i 0 = body.getD j 0 := by
  unfold swapBuf
  by_cases hij : i = j
  · subst hij
    rw [List.set_set, List.getD_eq_getElem?_getD,
      List.getElem?_set_self (by simpa using hi), Option.getD_some]
  · rw [List.getD_eq_getElem?_getD, List.getElem?_set_ne (Ne.symm hij),
      List.getElem?_set_self (by simpa using hi), Option.getD_some]

lemma getD_swapBuf_snd (body : List Int) {i j : Nat} (hj : j < body.length) :
    (swapBuf body i j).getD j 0 = body.getD i 0 := by
  unfold swapBuf
  rw [List.getD_eq_getElem?_getD, List.getElem?_set_self (by simpa using hj),
    Option.getD_some]

lemma getD_set_self {α : Type} {w : List α} {a : Nat} (dflt : α)
    (h : a < w.length) (v : α) : (w.set a v).getD a dflt = v := by
  rw [List.getD_eq_getElem?_getD, List.getElem?_set_self (by simpa using h),
    Option.getD_some]

lemma getD_set_ne {α : Type} {w : List α} {a b : Nat} (dflt : α) (h : a ≠ b)
    (v : α) : (w.set a v).getD b dflt = w.getD b dflt := by
  rw [List.getD_eq_getElem?_getD, List.getElem?_set_ne h,
    ← List.getD_eq_getElem?_getD]

lemma swapRemove_subset (l : List (Nat × Nat)) (i : Nat) :
    ∀ e ∈ swapRemove l i, e ∈ l := by
  unfold swapRemove
  cases hl : l.getLast? with
  | none => exact fun e he => he
  | some x =>
    intro e he
    rcases List.mem_or_eq_of_mem_set (List.dropLast_subset _ he) with h | h
    · exact h
    · subst h
      rw [List.getLast?_eq_getElem?] at hl
      rcases List.getElem?_eq_some.mp hl with ⟨hlt, hv⟩
      exact hv ▸ List.getElem_mem hlt

/-- Setting the value at the junction position of an append. -/
lemma set_at_append_length {α : Type} : ∀ (A : List α) (x y : α) (B : List α),
    (A ++ x :: B).set A.length y = A ++ y :: B := by
  intro A
  induction A with
  | nil => intro x y B; rfl
  | cons a A ih =>
    intro x y B
    simp [List.set_cons_succ, ih x y B]

lemma swapRemove_eq {l : List (Nat × Nat)} {x : Nat × Nat}
    (h : l.getLast? = some x) (i : Nat) :
    swapRemove l i = (l.set i x).dropLast := by
  unfold swapRemove
  rw [h]

/-- After swap_remove at a valid index i, the entries at positions at
least i are a permutation of the entries the original list held strictly
after i. -/
lemma swapRemove_drop_perm (l : List (Nat × Nat)) (i : Nat) (c : Nat × Nat)
    (h : l.get? i = some c) :
    ((swapRemove l i).drop i).Perm (l.drop (i + 1)) := by
  rw [List.get?_eq_getElem?] at h
  rcases List.getElem?_eq_some.mp h with ⟨hi, hv⟩
  obtain ⟨A, B, rfl, rfl⟩ : ∃ A B, l = A ++ c :: B ∧ A.length = i := by
    refine ⟨l.take i, l.drop (i + 1), ?_, ?_⟩
    · rw [← hv, ← List.drop_eq_getElem_cons hi, List.take_append_drop]
    · rw [List.length_take]
      omega
  rcases List.eq_nil_or_concat B with rfl | ⟨B', y, rfl⟩
  · have hlast : (A ++ c :: ([] : List (Nat × Nat))).getLast? = some c :=
      List.getLast?_concat _
    rw [swapRemove_eq hlast, set_at_append_length, List.dropLast_concat,
      List.drop_length, List.drop_eq_nil_of_le (by simp)]
  · rw [List.concat_eq_append]
    have hlast : (A ++ c :: (B' ++ [y])).getLast? = some y := by
      rw [show A ++ c :: (B' ++ [y]) = (A ++ c :: B') ++ [y] by simp]
      exact List.getLast?_concat _
    rw [swapRemove_eq hlast, set_at_append_length,
      show A ++ y :: (B' ++ [y]) = (A ++ y :: B') ++ [y] by simp,
      List.dropLast_concat,
      show A ++ y :: B' = A ++ (y :: B') from rfl, List.drop_left,
      show A ++ c :: (B' ++ [y]) = (A ++ [c]) ++ (B' ++ [y]) by simp,
      List.drop_left' (by simp)]
    exact (List.perm_append_singleton y B').symm

/-- Replacing the value at a valid position m while keeping the displaced
value in front permutes the list with the new value in front. -/
lemma perm_set_cons {α : Type} (dflt : α) : ∀ (t : List α) (m : Nat),
    m < t.length → ∀ x : α, ((t.getD m dflt) :: t.set m x).Perm (x :: t) := by
  intro t
  induction t with
  | nil =>
    intro m h
    simp at h
  | cons a t ih =>
    intro m h x
    cases m with
    | zero =>
      simpa [List.getD_cons_zero, List.set_cons_zero] using
        List.Perm.swap x a t
    | succ m =>
      rw [List.getD_cons_succ, List.set_cons_succ]
      exact ((List.Perm.swap a _ _).trans
        ((ih m (by simpa using h) x).cons a)).trans (List.Perm.swap x a t)

lemma swapBuf_perm {α : Type} (dflt : α) : ∀ (l : List α) (i j : Nat),
    i < l.length → j < l.length →
    ((l.set i (l.getD j dflt)).set j (l.getD i dflt)).Perm l := by
  intro l
  induction l with
  | nil =>
    intro i j hi
    simp at hi
  | cons a t ih =>
    intro i j hi hj
    cases i with
    | zero =>
      cases j with
      | zero => simp
      | succ j =>
        rw [List.getD_cons_zero, List.getD_cons_succ, List.set_cons_zero,
          List.set_cons_succ]
        exact perm_set_cons dflt t j (by simpa using hj) a
    | succ i =>
      cases j with
      | zero =>
        rw [List.getD_cons_zero, List.getD_cons_succ, List.set_cons_succ,
          List.set_cons_zero]
        exact perm_set_cons dflt t i (by simpa using hi) a
      | succ j =>
        rw [List.getD_cons_succ, List.getD_cons_succ, List.set_cons_succ,
          List.set_cons_succ]
        exact (ih i j (by simpa using hi) (by simpa using hj)).cons a

lemma getElem?_extractSpan (body : List Int) (d : Nat × Nat) (k : Nat) :
    (extractSpan body d)[k]? =
      if k < d.2 + 1 - d.1 then body[d.1 + k]? else none := by
  simp [extractSpan, List.getElem?_take, List.getElem?_drop]

lemma extractSpan_length (body : List Int) (d : Nat × Nat) :
    (extractSpan body d).length = min (d.2 + 1 - d.1) (body.length - d.1) := by
  simp [extractSpan]

lemma getD_extractSpan (body : List Int) (d : Nat × Nat) {k : Nat}
    (h1 : d.1 ≤ k) (h2 : k ≤ d.2) :
    (extractSpan body d).getD (k - d.1) 0 = body.getD k 0 := by
  rw [List.getD_eq_getElem?_getD, getElem?_extractSpan, if_pos (by omega),
    show d.1 + (k - d.1) = k by omega, ← List.getD_eq_getElem?_getD]

/-- A swap whose two positions both lie outside the span leaves the
span's slice unchanged. -/
lemma extractSpan_swapBuf_outside (body : List Int) {i j : Nat}
    (d : Nat × Nat) (hi : i < d.1 ∨ d.2 < i) (hj : j < d.1 ∨ d.2 < j) :
    extractSpan (swapBuf body i j) d = extractSpan body d := by
  apply List.ext_getElem?
  intro k
  rw [getElem?_extractSpan, getElem?_extractSpan]
  split_ifs with hk
  · unfold swapBuf
    rw [List.getElem?_set_ne (by omega), List.getElem?_set_ne (by omega)]
  · rfl

/-- A swap whose two positions both lie inside the span permutes the
span's slice. -/
lemma extractSpan_swapBuf_inside (body : List Int) {i j : Nat}
    (d : Nat × Nat) (h1 : d.1 ≤ i) (h2 : i ≤ d.2) (h3 : d.1 ≤ j)
    (h4 : j ≤ d.2) (hlen : d.2 < body.length) :
    (extractSpan (swapBuf body i j) d).Perm (extractSpan body d) := by
  have hx : (extractSpan body d).getD (j - d.1) 0 = body.getD j 0 :=
    getD_extractSpan body d h3 h4
  have hy : (extractSpan body d).getD (i - d.1) 0 = body.getD i 0 :=
    getD_extractSpan body d h1 h2
  have hcomm : extractSpan (swapBuf body i j) d =
      ((extractSpan body d).set (i - d.1) ((extractSpan body d).getD (j - d.1) 0)).set
        (j - d.1) ((extractSpan body d).getD (i - d.1) 0) := by
    apply List.ext_getElem?
    intro k
    rw [getElem?_extractSpan, hx, hy]
    unfold swapBuf
    simp only [List.getElem?_set, List.length_set, getElem?_extractSpan,
      extractSpan_length]
    split_ifs <;> first | rfl | (exfalso; omega)
  rw [hcomm]
  exact swapBuf_perm 0 _ _ _
    (by rw [extractSpan_length]; omega) (by rw [extractSpan_length]; omega)

/-- A successful interior scan returns a position inside the scanned
range. -/
lemma scanFrom_some_bounds (s : Solver) : ∀ (rem q p : Nat),
    scanFrom s q rem = .ok (some p) → q ≤ p ∧ p < q + rem := by
  intro rem
  induction rem with
  | zero =>
    intro q p h
    exact absurd h (by simp [scanFrom])
  | succ rem ih =>
    intro q p h
    rw [scanFrom] at h
    split at h
    · exact absurd h (by simp)
    · rcases ih (q + 1) p h with ⟨h1, h2⟩
      omega
    · cases h
      omega

/-- After the rescue step's swap_remove and push, every entry of the slot
list was already an entry of the slot list before the step. -/
lemma mem_rescue_watchers {w : List (List (Nat × Nat))} {slot k i : Nat}
    {c : Nat × Nat} (hc : (w.getD slot []).get? i = some c) :
    ∀ e ∈ (((w.set slot (swapRemove (w.getD slot []) i)).set k
        (((w.set slot (swapRemove (w.getD slot []) i)).getD k []) ++ [c])).getD
          slot []),
      e ∈ w.getD slot [] := by
  intro e he
  have hslot : slot < w.length := by
    by_contra hge
    rw [List.getD_eq_default _ _ (by omega)] at hc
    simp at hc
  by_cases hk : k = slot
  · subst hk
    rw [getD_set_self _ (by simpa using hslot) _] at he
    rw [getD_set_self _ hslot _] at he
    rcases List.mem_append.mp he with h | h
    · exact swapRemove_subset _ _ _ h
    · rw [List.mem_singleton] at h
      subst h
      exact List.get?_mem hc
  · rw [getD_set_ne _ hk _] at he
    rw [getD_set_self _ hslot _] at he
    exact swapRemove_subset _ _ _ he

/-- Loop invariant for the per-clause permutation claim: when every entry
of the traversed watcher list is an ordered in-bounds span that is equal to
or disjoint from the span d, a completed loop run permutes the slice of
d (all buffer mutations are swaps inside the processed entry's span). -/
lemma propLoop_extract_perm (lit : Int) (d : Nat × Nat) :
    ∀ (fuel : Nat) (s : Solver) (i : Nat)
      (acc : List (Int × Option (Nat × Nat))) (r : PropagateResult)
      (s' : Solver),
    (∀ e ∈ s.watchers.getD (get_loc lit s.n) [],
      (e.1 ≤ e.2 ∧ e.2 < s.clause_body.length) ∧ sdisj e d) →
    propLoop s lit fuel i acc = .ok (r, s') →
    (extractSpan s'.clause_body d).Perm (extractSpan s.clause_body d) := by
  intro fuel
  induction fuel with
  | zero =>
    intro s i acc r s' hw h
    exact absurd h (by simp [propLoop])
  | succ fuel ih =>
    intro s i acc r s' hw h
    rw [propLoop] at h
    split at h
    · cases h
      exact List.Perm.refl _
    · rename_i c hc
      have hcmem : c ∈ s.watchers.getD (get_loc lit s.n) [] := List.get?_mem hc
      rcases hw c hcmem with ⟨⟨hle, hlt⟩, hdisj⟩
      by_cases hswap : s.clause_body.getD c.2 0 = negative lit <;>
        simp only [if_pos, if_neg, hswap, if_true, if_false] at h
      · -- normalization swapped the two boundaries
        have hperm1 : (extractSpan (swapBuf s.clause_body c.1 c.2) d).Perm
            (extractSpan s.clause_body d) := by
          rcases hdisj with rfl | hd | hd
          · exact extractSpan_swapBuf_inside _ _ le_rfl hle hle le_rfl hlt
          · rw [extractSpan_swapBuf_outside _ _ (Or.inl (by omega))
              (Or.inl (by omega))]
          · rw [extractSpan_swapBuf_outside _ _ (Or.inr (by omega))
              (Or.inr (by omega))]
        have hw1 : ∀ e ∈ s.watchers.getD (get_loc lit s.n) [],
            (e.1 ≤ e.2 ∧ e.2 < (swapBuf s.clause_body c.1 c.2).length) ∧
              sdisj e d := by
          intro e he
          rw [swapBuf_length]
          exact hw e he
        split at h
        · exact absurd h (by simp)
        · exact (ih _ _ _ _ _ hw1 h).trans hperm1
        · split at h
          · exact absurd h (by simp)
          · rename_i p hscan
            rcases scanFrom_some_bounds _ _ _ _ hscan with ⟨hp1, hp2⟩
            have hperm2 :
                (extractSpan (swapBuf (swapBuf s.clause_body c.1 c.2) p c.2) d).Perm
                  (extractSpan (swapBuf s.clause_body c.1 c.2) d) := by
              rcases hdisj with rfl | hd | hd
              · exact extractSpan_swapBuf_inside _ _ (by omega) (by omega)
                  hle le_rfl (by rw [swapBuf_length]; exact hlt)
              · rw [extractSpan_swapBuf_outside _ _ (Or.inl (by omega))
                  (Or.inl (by omega))]
              · rw [extractSpan_swapBuf_outside _ _ (Or.inr (by omega))
                  (Or.inr (by omega))]
            have hw4 : ∀ e ∈ (((s.watchers.set (get_loc lit s.n)
                (swapRemove (s.watchers.getD (get_loc lit s.n) []) i)).set
                  (get_loc ((swapBuf (swapBuf s.clause_body c.1 c.2) p c.2).getD p 0) s.n)
                  (((s.watchers.set (get_loc lit s.n)
                    (swapRemove (s.watchers.getD (get_loc lit s.n) []) i)).getD
                      (get_loc ((swapBuf (swapBuf s.clause_body c.1 c.2) p c.2).getD p 0) s.n)
                      []) ++ [c])).getD (get_loc lit s.n) []),
                (e.1 ≤ e.2 ∧
                  e.2 < (swapBuf (swapBuf s.clause_body c.1 c.2) p c.2).length) ∧
                  sdisj e d := by
              intro e he
              have := mem_rescue_watchers hc e he
              rw [swapBuf_length, swapBuf_length]
              exact hw e this
            exact ((ih _ _ _ _ _ hw4 h).trans hperm2).trans hperm1
          · split at h
            · exact absurd h (by simp)
            · cases h
              exact hperm1
            · exact (ih _ _ _ _ _ hw1 h).trans hperm1
      · -- no normalization swap: the state entering the branches is s
        have hw1 : ∀ e ∈ s.watchers.getD (get_loc lit s.n) [],
            (e.1 ≤ e.2 ∧ e.2 < s.clause_body.length) ∧ sdisj e d := hw
        split at h
        · exact absurd h (by simp)
        · exact ih _ _ _ _ _ hw1 h
        · split at h
          · exact absurd h (by simp)
          · rename_i p hscan
            rcases scanFrom_some_bounds _ _ _ _ hscan with ⟨hp1, hp2⟩
            have hperm2 :
                (extractSpan (swapBuf s.clause_body p c.2) d).Perm
                  (extractSpan s.clause_body d) := by
              rcases hdisj with rfl | hd | hd
              · exact extractSpan_swapBuf_inside _ _ (by omega) (by omega)
                  hle le_rfl hlt
              · rw [extractSpan_swapBuf_outside _ _ (Or.inl (by omega))
                  (Or.inl (by omega))]
              · rw [extractSpan_swapBuf_outside _ _ (Or.inr (by omega))
                  (Or.inr (by omega))]
            have hw4 : ∀ e ∈ (((s.watchers.set (get_loc lit s.n)
                (swapRemove (s.watchers.getD (get_loc lit s.n) []) i)).set
                  (get_loc ((swapBuf s.clause_body p c.2).getD p 0) s.n)
                  (((s.watchers.set (get_loc lit s.n)
                    (swapRemove (s.watchers.getD (get_loc lit s.n) []) i)).getD
                      (get_loc ((swapBuf s.clause_body p c.2).getD p 0) s.n)
                      []) ++ [c])).getD (get_loc lit s.n) []),
                (e.1 ≤ e.2 ∧ e.2 < (swapBuf s.clause_body p c.2).length) ∧
                  sdisj e d := by
              intro e he
              have := mem_rescue_watchers hc e he
              rw [swapBuf_length]
              exact hw e this
            exact (ih _ _ _ _ _ hw4 h).trans hperm2
          · split at h
            · exact absurd h (by simp)
            · cases h
              exact List.Perm.refl _
            · exact ih _ _ _ _ _ hw1 h

/-- C9: a completed propagate_once call only mutates the clause buffer by
swaps between two positions inside the processed clause's span, so any
span d that every traversed watcher entry is equal to or disjoint from
holds a permutation of the literals it held before the call; with the
construction-time disjointness of clause spans this means every clause
keeps a permutation of its construction-time literals. -/
theorem C9_clause_multiset_preserved (s : Solver) (lit : Int) (fuel : Nat)
    (d : Nat × Nat) (r : PropagateResult) (s' : Solver)
    (hw : ∀ e ∈ s.watchers.getD (get_loc lit s.n) [],
      (e.1 ≤ e.2 ∧ e.2 < s.clause_body.length) ∧ sdisj e d)
    (h : propagate_once s lit fuel = .ok (r, s')) :
    (extractSpan s'.clause_body d).Perm (extractSpan s.clause_body d) := by
  unfold propagate_once at h
  split_ifs at h with hv
  exact propLoop_extract_perm lit d fuel s 0 [] r s' hw h

/-- Witness for C9 on the rescue scenario sA: the clause span (0, 2) held
[1, 2, 3] before and [1, 3, 2] after the call. -/
theorem C9_witness :
    (extractSpan sAafter.clause_body (0, 2)).Perm
      (extractSpan sA.clause_body (0, 2)) :=
  C9_clause_multiset_preserved sA (-1) 10 (0, 2) (.Ok []) sAafter
    (by decide) (by decide)

/-- When a nonzero literal evaluates true, its negation evaluates false. -/
lemma eval_negative_of_true {s : Solver} {lit : Int} (h0 : lit ≠ 0)
    (h : eval_unchecked s lit = .ok (some true)) :
    eval_unchecked s (negative lit) = .ok (some false) := by
  unfold eval_unchecked at h ⊢
  unfold negative
  unfold varOf as_bool at h ⊢
  rw [Int.natAbs_neg]
  cases hv : s.assign.get? lit.natAbs with
  | none =>
    rw [hv] at h
    exact absurd h (by simp)
  | some a =>
    rw [hv] at h
    cases a with
    | none => simp at h
    | some b =>
      simp only [Option.map_some', Except.ok.injEq, Option.some.injEq] at h ⊢
      have hb : b = decide (0 < lit) := by simpa using h
      subst hb
      rw [beq_eq_false_iff_ne, ne_eq, decide_eq_decide]
      omega

/-- A failed interior scan means every scanned position holds a false
literal. -/
lemma scanFrom_none_all_false (s : Solver) : ∀ (rem q : Nat),
    scanFrom s q rem = .ok none → ∀ k, q ≤ k → k < q + rem →
      eval_unchecked s (s.clause_body.getD k 0) = .ok (some false) := by
  intro rem
  induction rem with
  | zero =>
    intro q _ k hk1 hk2
    omega
  | succ rem ih =>
    intro q h k hk1 hk2
    rw [scanFrom] at h
    split at h
    · exact absurd h (by simp)
    · rename_i heval
      by_cases hkq : k = q
      · subst hkq
        exact heval
      · exact ih (q + 1) h k (by omega) (by omega)
    · exact absurd h (by simp)

lemma sdisj_symm {c d : Nat × Nat} (h : sdisj c d) : sdisj d c := by
  rcases h with rfl | h | h
  · exact Or.inl rfl
  · exact Or.inr (Or.inr h)
  · exact Or.inr (Or.inl h)

lemma swapRemove_length {l : List (Nat × Nat)} (hne : l ≠ []) (i : Nat) :
    (swapRemove l i).length = l.length - 1 := by
  unfold swapRemove
  cases hl : l.getLast? with
  | none => exact absurd (List.getLast?_eq_none_iff.mp hl) hne
  | some x => simp

/-- One mutation step of the loop preserves well-formedness of an entry
that is equal to or disjoint from the processed span c0, provided the
mutation does not touch positions outside c0's interval and leaves the
negated literal at c0's first position. -/
lemma spanOk_preserve {body bodyx : List Int} {lit : Int} {c0 e : Nat × Nat}
    (hlen : bodyx.length = body.length)
    (huntouched : ∀ k, k < c0.1 ∨ c0.2 < k → bodyx.getD k 0 = body.getD k 0)
    (hfirst : bodyx.getD c0.1 0 = negative lit)
    (hse : spanOk body lit e) (hd : sdisj c0 e) : spanOk bodyx lit e := by
  rcases hse with ⟨he12, helen, hebound⟩
  rcases hd with rfl | hd | hd
  · exact ⟨he12, by omega, Or.inl hfirst⟩
  · refine ⟨he12, by omega, ?_⟩
    rcases hebound with hb | hb
    · exact Or.inl (by rw [huntouched e.1 (by omega)]; exact hb)
    · exact Or.inr (by rw [huntouched e.2 (by omega)]; exact hb)
  · refine ⟨he12, by omega, ?_⟩
    rcases hebound with hb | hb
    · exact Or.inl (by rw [huntouched e.1 (by omega)]; exact hb)
    · exact Or.inr (by rw [huntouched e.2 (by omega)]; exact hb)

/-- Loop invariant for the conflict claim: when the propagated literal is
nonzero and evaluates true and every pending entry of the traversed
watcher list is well formed (spanOk) with pairwise equal-or-disjoint
spans, a conflict returned by the loop is a clause whose every literal
evaluates false in the returned state. -/
lemma propLoop_conflict_all_false (lit : Int) (h0 : lit ≠ 0) :
    ∀ (fuel : Nat) (s : Solver) (i : Nat)
      (acc : List (Int × Option (Nat × Nat))) (c : Nat × Nat) (s' : Solver),
    eval_unchecked s lit = .ok (some true) →
    (∀ e ∈ (s.watchers.getD (get_loc lit s.n) []).drop i,
      spanOk s.clause_body lit e) →
    ((s.watchers.getD (get_loc lit s.n) []).drop i).Pairwise sdisj →
    propLoop s lit fuel i acc = .ok (.Conflict c, s') →
    ∀ k, c.1 ≤ k → k ≤ c.2 →
      eval_unchecked s' (s'.clause_body.getD k 0) = .ok (some false) := by
  intro fuel
  induction fuel with
  | zero =>
    intro s i acc c s' _ _ _ h
    exact absurd h (by simp [propLoop])
  | succ fuel ih =>
    intro s i acc c s' htrue hA hB h
    rw [propLoop] at h
    split at h
    · exact absurd h (by simp)
    · rename_i c0 hc
      have hgetl := hc
      rw [List.get?_eq_getElem?] at hgetl
      rcases List.getElem?_eq_some.mp hgetl with ⟨hilt, hival⟩
      have hdropi : (s.watchers.getD (get_loc lit s.n) []).drop i
          = c0 :: (s.watchers.getD (get_loc lit s.n) []).drop (i + 1) := by
        rw [List.drop_eq_getElem_cons hilt, hival]
      rw [hdropi] at hA hB
      have hc0span : spanOk s.clause_body lit c0 :=
        hA c0 (List.mem_cons_self _ _)
      have hc012 : c0.1 ≤ c0.2 := hc0span.1
      have hc02len : c0.2 < s.clause_body.length := hc0span.2.1
      rcases List.pairwise_cons.mp hB with ⟨hrel, hBtail⟩
      have hAtail : ∀ e ∈ (s.watchers.getD (get_loc lit s.n) []).drop (i + 1),
          spanOk s.clause_body lit e :=
        fun e he => hA e (List.mem_cons_of_mem _ he)
      have hlne : s.watchers.getD (get_loc lit s.n) [] ≠ [] := by
        intro hnil
        rw [hnil] at hc
        simp at hc
      have hslot : get_loc lit s.n < s.watchers.length := by
        by_contra hge
        rw [List.getD_eq_default _ _ (by omega)] at hc
        simp at hc
      have hXperm : ((swapRemove (s.watchers.getD (get_loc lit s.n) [])
          i).drop i).Perm
            ((s.watchers.getD (get_loc lit s.n) []).drop (i + 1)) :=
        swapRemove_drop_perm _ i c0 hc
      have hXlen : (swapRemove (s.watchers.getD (get_loc lit s.n) [])
          i).length = (s.watchers.getD (get_loc lit s.n) []).length - 1 :=
        swapRemove_length hlne i
      have hdropapp : ∀ z : Nat × Nat,
          ((swapRemove (s.watchers.getD (get_loc lit s.n) []) i) ++ [z]).drop i
            = (swapRemove (s.watchers.getD (get_loc lit s.n) []) i).drop i
              ++ [z] := by
        intro z
        exact List.drop_append_of_le_length (by omega)
      by_cases hswap : s.clause_body.getD c0.2 0 = negative lit <;>
        simp only [if_pos, if_neg, hswap, if_true, if_false] at h
      · -- the boundaries were swapped by normalization
        have hc1lt : c0.1 < s.clause_body.length := by omega
        have hfirst1 : (swapBuf s.clause_body c0.1 c0.2).getD c0.1 0 =
            negative lit := by
          rw [getD_swapBuf_fst _ hc1lt]
          exact hswap
        have hlen1 : (swapBuf s.clause_body c0.1 c0.2).length =
            s.clause_body.length := swapBuf_length _ _ _
        have hunt1 : ∀ k, k < c0.1 ∨ c0.2 < k →
            (swapBuf s.clause_body c0.1 c0.2).getD k 0 =
              s.clause_body.getD k 0 := by
          intro k hk
          exact getD_swapBuf_ne _ (by omega) (by omega)
        split at h
        · exact absurd h (by simp)
        · refine ih _ _ _ _ _ ?_ ?_ ?_ h
          · exact htrue
          · intro e he
            exact spanOk_preserve hlen1 hunt1 hfirst1 (hAtail e he)
              (hrel e he)
          · exact hBtail
        · split at h
          · exact absurd h (by simp)
          · rename_i p hscan
            rcases scanFrom_some_bounds _ _ _ _ hscan with ⟨hp1, hp2⟩
            have hc0lt : c0.1 < p ∧ p < c0.2 := by omega
            have hfirst2 : (swapBuf (swapBuf s.clause_body c0.1 c0.2) p
                c0.2).getD c0.1 0 = negative lit := by
              rw [getD_swapBuf_ne _ (by omega) (by omega)]
              exact hfirst1
            have hlen2 : (swapBuf (swapBuf s.clause_body c0.1 c0.2) p
                c0.2).length = s.clause_body.length := by
              rw [swapBuf_length, swapBuf_length]
            have hunt2 : ∀ k, k < c0.1 ∨ c0.2 < k →
                (swapBuf (swapBuf s.clause_body c0.1 c0.2) p c0.2).getD k 0 =
                  s.clause_body.getD k 0 := by
              intro k hk
              rw [getD_swapBuf_ne _ (by omega) (by omega)]
              exact hunt1 k hk
            have hmemall : ∀ e, (e ∈ (s.watchers.getD (get_loc lit s.n)
                []).drop (i + 1) ∨ e = c0) →
                spanOk (swapBuf (swapBuf s.clause_body c0.1 c0.2) p c0.2)
                  lit e := by
              intro e he
              rcases he with he | he
              · exact spanOk_preserve hlen2 hunt2 hfirst2 (hAtail e he)
                  (hrel e he)
              · subst he
                exact spanOk_preserve hlen2 hunt2 hfirst2 hc0span (Or.inl rfl)
            refine ih _ _ _ _ _ ?_ ?_ ?_ h
            · exact htrue
            · intro e he
              by_cases hk' : get_loc ((swapBuf (swapBuf s.clause_body c0.1
                  c0.2) p c0.2).getD p 0) s.n = get_loc lit s.n
              · rw [hk'] at he
                rw [getD_set_self _ (by simpa using hslot) _,
                  getD_set_self _ hslot _, hdropapp c0] at he
                rcases List.mem_append.mp he with hme | hme
                · exact hmemall e (Or.inl (hXperm.mem_iff.mp hme))
                · rw [List.mem_singleton] at hme
                  exact hmemall e (Or.inr hme)
              · rw [getD_set_ne _ hk' _, getD_set_self _ hslot _] at he
                exact hmemall e (Or.inl (hXperm.mem_iff.mp he))
            · by_cases hk' : get_loc ((swapBuf (swapBuf s.clause_body c0.1
                  c0.2) p c0.2).getD p 0) s.n = get_loc lit s.n
              · rw [hk', getD_set_self _ (by simpa using hslot) _,
                  getD_set_self _ hslot _, hdropapp c0]
                refine ((hXperm.append_right [c0]).pairwise_iff
                  (fun hxy => sdisj_symm hxy)).mpr ?_
                refine List.pairwise_append.mpr ⟨hBtail, ?_, ?_⟩
                · exact List.pairwise_singleton _ _
                · intro a ha b hb
                  rw [List.mem_singleton] at hb
                  subst hb
                  exact sdisj_symm (hrel a ha)
              · rw [getD_set_ne _ hk' _, getD_set_self _ hslot _]
                exact (hXperm.pairwise_iff (fun hxy => sdisj_symm hxy)).mpr
                  hBtail
          · rename_i hscan
            split at h
            · exact absurd h (by simp)
            · rename_i hfalse
              cases h
              intro k hk1 hk2
              dsimp only at hk1 hk2 ⊢
              by_cases hkc2 : k = c.2
              · subst hkc2
                exact hfalse
              · by_cases hkc1 : k = c.1
                · subst hkc1
                  rw [show (swapBuf s.clause_body c.1 c.2).getD c.1 0 =
                    negative lit from hfirst1]
                  exact eval_negative_of_true h0 htrue
                · exact scanFrom_none_all_false _ _ _ hscan k (by omega)
                    (by omega)
            · refine ih _ _ _ _ _ ?_ ?_ ?_ h
              · exact htrue
              · intro e he
                exact spanOk_preserve hlen1 hunt1 hfirst1 (hAtail e he)
                  (hrel e he)
              · exact hBtail
      · -- no normalization swap
        have hfirst1 : s.clause_body.getD c0.1 0 = negative lit := by
          rcases hc0span.2.2 with hb | hb
          · exact hb
          · exact absurd hb hswap
        have hunt1 : ∀ k, k < c0.1 ∨ c0.2 < k →
            s.clause_body.getD k 0 = s.clause_body.getD k 0 := fun k _ => rfl
        split at h
        · exact absurd h (by simp)
        · refine ih _ _ _ _ _ ?_ ?_ ?_ h
          · exact htrue
          · intro e he
            exact spanOk_preserve rfl hunt1 hfirst1 (hAtail e he) (hrel e he)
          · exact hBtail
        · split at h
          · exact absurd h (by simp)
          · rename_i p hscan
            rcases scanFrom_some_bounds _ _ _ _ hscan with ⟨hp1, hp2⟩
            have hc0lt : c0.1 < p ∧ p < c0.2 := by omega
            have hfirst2 : (swapBuf s.clause_body p c0.2).getD c0.1 0 =
                negative lit := by
              rw [getD_swapBuf_ne _ (by omega) (by omega)]
              exact hfirst1
            have hlen2 : (swapBuf s.clause_body p c0.2).length =
                s.clause_body.length := swapBuf_length _ _ _
            have hunt2 : ∀ k, k < c0.1 ∨ c0.2 < k →
                (swapBuf s.clause_body p c0.2).getD k 0 =
                  s.clause_body.getD k 0 := by
              intro k hk
              exact getD_swapBuf_ne _ (by omega) (by omega)
            have hmemall : ∀ e, (e ∈ (s.watchers.getD (get_loc lit s.n)
                []).drop (i + 1) ∨ e = c0) →
                spanOk (swapBuf s.clause_body p c0.2) lit e := by
              intro e he
              rcases he with he | he
              · exact spanOk_preserve hlen2 hunt2 hfirst2 (hAtail e he)
                  (hrel e he)
              · subst he
                exact spanOk_preserve hlen2 hunt2 hfirst2 hc0span (Or.inl rfl)
            refine ih _ _ _ _ _ ?_ ?_ ?_ h
            · exact htrue
            · intro e he
              by_cases hk' : get_loc ((swapBuf s.clause_body p c0.2).getD p 0)
                  s.n = get_loc lit s.n
              · rw [hk'] at he
                rw [getD_set_self _ (by simpa using hslot) _,
                  getD_set_self _ hslot _, hdropapp c0] at he
                rcases List.mem_append.mp he with hme | hme
                · exact hmemall e (Or.inl (hXperm.mem_iff.mp hme))
                · rw [List.mem_singleton] at hme
                  exact hmemall e (Or.inr hme)
              · rw [getD_set_ne _ hk' _, getD_set_self _ hslot _] at he
                exact hmemall e (Or.inl (hXperm.mem_iff.mp he))
            · by_cases hk' : get_loc ((swapBuf s.clause_body p c0.2).getD p 0)
                  s.n = get_loc lit s.n
              · rw [hk', getD_set_self _ (by simpa using hslot) _,
                  getD_set_self _ hslot _, hdropapp c0]
                refine ((hXperm.append_right [c0]).pairwise_iff
                  (fun hxy => sdisj_symm hxy)).mpr ?_
                refine List.pairwise_append.mpr ⟨hBtail, ?_, ?_⟩
                · exact List.pairwise_singleton _ _
                · intro a ha b hb
                  rw [List.mem_singleton] at hb
                  subst hb
                  exact sdisj_symm (hrel a ha)
              · rw [getD_set_ne _ hk' _, getD_set_self _ hslot _]
                exact (hXperm.pairwise_iff (fun hxy => sdisj_symm hxy)).mpr
                  hBtail
          · rename_i hscan
            split at h
            · exact absurd h (by simp)
            · rename_i hfalse
              cases h
              intro k hk1 hk2
              by_cases hkc2 : k = c.2
              · subst hkc2
                exact hfalse
              · by_cases hkc1 : k = c.1
                · subst hkc1
                  rw [show s.clause_body.getD c.1 0 = negative lit
                    from hfirst1]
                  exact eval_negative_of_true h0 htrue
                · exact scanFrom_none_all_false _ _ _ hscan k (by omega)
                    (by omega)
            · refine ih _ _ _ _ _ ?_ ?_ ?_ h
              · exact htrue
              · intro e he
                exact spanOk_preserve rfl hunt1 hfirst1 (hAtail e he)
                  (hrel e he)
              · exact hBtail

/-- C5: when propagate_once is called with a nonzero literal that
evaluates true, on a state whose watcher list for that literal holds well
formed entries (ordered in-bounds spans watching the literal's negation,
pairwise equal or disjoint), then a returned conflict clause has every one
of its literals (first boundary, interior, second boundary) evaluating
false in the returned state; the Conflict constructor carries only the
clause, so consequences accumulated earlier in the call are discarded by
the shape of the result. -/
theorem C5_conflict_clause_fully_false (s : Solver) (lit : Int) (fuel : Nat)
    (c : Nat × Nat) (s' : Solver) (h0 : lit ≠ 0)
    (htrue : eval_unchecked s lit = .ok (some true))
    (hA : ∀ e ∈ s.watchers.getD (get_loc lit s.n) [],
      spanOk s.clause_body lit e)
    (hB : (s.watchers.getD (get_loc lit s.n) []).Pairwise sdisj)
    (h : propagate_once s lit fuel = .ok (.Conflict c, s')) :
    ∀ k, c.1 ≤ k → k ≤ c.2 →
      eval_unchecked s' (s'.clause_body.getD k 0) = .ok (some false) := by
  unfold propagate_once at h
  split_ifs at h with hv
  exact propLoop_conflict_all_false lit h0 fuel s 0 [] c s' htrue
    (by simpa using hA) (by simpa using hB) h

/-- Witness for C5 on Scenario B moved below the variable bound (n = 3,
clause [1, 2], variables 1 and 2 false): the conflict clause (0, 1) is
returned and both its literals evaluate false. -/
theorem C5_witness :
    eval_unchecked sB (sB.clause_body.getD 0 0) = .ok (some false) ∧
    eval_unchecked sB (sB.clause_body.getD 1 0) = .ok (some false) :=
  ⟨C5_conflict_clause_fully_false sB (-1) 5 (0, 1) sB (by decide) (by decide)
      (by decide) (by decide) (by decide) 0 (by decide) (by decide),
   C5_conflict_clause_fully_false sB (-1) 5 (0, 1) sB (by decide) (by decide)
      (by decide) (by decide) (by decide) 1 (by decide) (by decide)⟩

end Yasuosat
